import Mathlib

/-!
Shallow embedding of `ci/check_i18n_quality.py`, a validator for translation
catalogs.  Python floats are modelled as exact rationals (`ℚ`); Python's
`float(...)` string parser is abstracted as a parameter `pf : String → Option ℚ`
(`none` = `ValueError`).  A parsed JSON document is modelled by `Json`; a JSON
object stands for the Python `dict` returned by `json.load`, so its field
names are distinct in every run of the real program.  `SystemExit` aborts are
modelled with `Except Fatal`; the collected validation-error strings are
modelled by the constructors of `ValError`, each carrying exactly the data
interpolated into the corresponding Python format string.
-/

namespace I18nCheck

/-- A parsed JSON value, as returned by `json.load`. -/
inductive Json where
  | jstr (s : String)
  | jobj (fields : List (String × Json))
  | jnum (q : ℚ)
  | jbool (b : Bool)
  | jnull
  | jarr (elems : List Json)

/-- `isinstance(v, str)` on a parsed JSON value. -/
def Json.isStr : Json → Bool
  | .jstr _ => true
  | _ => false

/-- The string payload of a `jstr` (only applied after an `isStr` check). -/
def Json.asStr : Json → String
  | .jstr s => s
  | _ => ""

/-- The fatal (`SystemExit`) errors the script can raise.  The file-read /
JSON-syntax failure branch of `load_json` is not represented because the
embedding's inputs are already parsed values. -/
inductive Fatal where
  | badFloat (envName : String) (raw : String)
  | outOfRange (envName : String) (value : ℚ)
  | notObject (path : String)
  | nonString (path : String) (keysPreview : List String)
  deriving DecidableEq

/-- The collected (reportable) validation errors.  Each constructor carries
the data interpolated into the corresponding Python message string; for a key
mismatch, a count is `none` exactly when the category is empty and hence
omitted from the `details` list. -/
inductive ValError where
  | missingBase (basePath : String)
  | emptyBase (basePath : String)
  | keyMismatch (file : String) (missingCount extraCount : Option Nat)
  | fullClone (file : String) (same total : Nat)
  | ratioBreach (file : String) (same total : Nat) (maxRatio : ℚ)
  deriving DecidableEq

/-- A catalog: the key/value pairs of the Python dict, in insertion order. -/
abbrev Catalog := List (String × String)

/-- Python `str.isspace()` for a single character: the ASCII whitespace
characters `\t`, `\n`, `\x0b`, `\x0c`, `\r`, the separators `\x1c`-`\x1f`,
the space, next-line `\x85`, and the Unicode space separators (category Zs
plus the line and paragraph separators): no-break space `\xa0`, Ogham space
mark U+1680, the typographic spaces U+2000-U+200A, U+2028, U+2029, the
narrow no-break space U+202F, U+205F, and the ideographic space U+3000. -/
def pyIsSpace (c : Char) : Bool :=
  decide ((9 ≤ c.toNat ∧ c.toNat ≤ 13) ∨ (28 ≤ c.toNat ∧ c.toNat ≤ 31) ∨
    c.toNat = 32 ∨ c.toNat = 133 ∨ c.toNat = 160 ∨ c.toNat = 0x1680 ∨
    (0x2000 ≤ c.toNat ∧ c.toNat ≤ 0x200a) ∨ c.toNat = 0x2028 ∨
    c.toNat = 0x2029 ∨ c.toNat = 0x202f ∨ c.toNat = 0x205f ∨
    c.toNat = 0x3000)

/-- Python `str.strip()`: drop leading and trailing whitespace characters. -/
def strip (s : String) : String :=
  ⟨((s.data.dropWhile pyIsSpace).reverse.dropWhile pyIsSpace).reverse⟩

/-- Python `s.startswith(p)`, character by character. -/
def strStartsWith (s p : String) : Bool :=
  p.data.isPrefixOf s.data

/-- Python `s.endswith(p)`, character by character. -/
def strEndsWith (s p : String) : Bool :=
  p.data.isSuffixOf s.data

/-- Python string comparison: lexicographic order on the code-point
sequences.  `List Char` carries the lexicographic order of its linear-order
instance. -/
def nameLe (a b : String) : Prop :=
  a.data ≤ b.data

instance : DecidableRel nameLe :=
  fun a b => inferInstanceAs (Decidable (a.data ≤ b.data))

instance : IsTrans String nameLe :=
  ⟨fun _ _ _ hab hbc => le_trans (α := List Char) hab hbc⟩

instance : IsTotal String nameLe :=
  ⟨fun a b => le_total a.data b.data⟩

instance : IsAntisymm String nameLe :=
  ⟨fun a b hab hba => by
    cases a with
    | mk da => cases b with
      | mk db => exact congrArg String.mk (le_antisymm hab hba)⟩

/-- `parse_ratio`: resolve one threshold from an environment value. -/
def parse_ratio (pf : String → Option ℚ) (envName : String)
    (raw : Option String) (default : ℚ) : Except Fatal ℚ :=
  match raw with
  | none => .ok default
  | some s =>
    if strip s = "" then .ok default
    else
      match pf s with
      | none => .error (.badFloat envName s)
      | some value =>
        if value < 0 ∨ value > 1 then .error (.outOfRange envName value)
        else .ok value

/-- The keys of a JSON object mapped to non-string values, in field order
(the list comprehension `[k for k, v in raw.items() if not isinstance(v, str)]`). -/
def nonStringKeys (fields : List (String × Json)) : List String :=
  (fields.filter (fun p => !(p.2).isStr)).map Prod.fst

/-- `load_json`, applied to the already-parsed content of the file at `path`. -/
def load_json (path : String) (raw : Json) : Except Fatal Catalog :=
  match raw with
  | .jobj fields =>
    if (nonStringKeys fields).isEmpty then
      .ok (fields.map (fun p => (p.1, (p.2).asStr)))
    else
      .error (.nonString path ((nonStringKeys fields).take 5))
  | _ => .error (.notObject path)

/-- `set(c.keys())`: the distinct keys of a catalog.  A `dedup` models the
set; only membership and cardinality of the result are ever used. -/
def keySet (c : Catalog) : List String :=
  (c.map Prod.fst).dedup

/-- `base_keys - keys` (only its length is reported, so sorting is elided). -/
def missingKeys (base data : Catalog) : List String :=
  (keySet base).filter (fun k => !((keySet data).contains k))

/-- `keys - base_keys` (only its length is reported, so sorting is elided). -/
def extraKeys (base data : Catalog) : List String :=
  (keySet data).filter (fun k => !((keySet base).contains k))

/-- `sum(1 for key in base_keys if data[key] == base[key])`. -/
def sameCount (base data : Catalog) : Nat :=
  (keySet base).countP (fun k => data.lookup k == base.lookup k)

/-- `len(missing)` when missing is non-empty, else the category is omitted. -/
def optCount (l : List String) : Option Nat :=
  if l.isEmpty then none else some l.length

/-- The body of the per-locale-file loop of `validate_catalog_dir`, after the
file at `file` has been loaded into `data`: at most one error per file. -/
def checkLocale (base : Catalog) (maxRatio : ℚ) (file : String)
    (data : Catalog) : Option ValError :=
  if missingKeys base data ≠ [] ∨ extraKeys base data ≠ [] then
    some (.keyMismatch file (optCount (missingKeys base data))
      (optCount (extraKeys base data)))
  else
    let same := sameCount base data
    let keyTotal := (keySet base).length
    if same = keyTotal then some (.fullClone file same keyTotal)
    else if (same : ℚ) / (keyTotal : ℚ) > maxRatio then
      some (.ratioBreach file same keyTotal maxRatio)
    else none

/-- Look up a directory entry by file name (reading the file at that path). -/
def findFile (files : List (String × Json)) (name : String) : Option Json :=
  (files.find? (fun p => p.1 == name)).map Prod.snd

/-- `Path.stem` for a name matched by the glob pattern, i.e. a name ending in
the 5-character extension `.json`. -/
def stemOf (name : String) : String :=
  ⟨name.data.take (name.data.length - 5)⟩

/-- `sorted(path.glob("*.json"))`: the names matching the pattern, in
lexicographically sorted order. -/
def sortedJsonNames (files : List (String × Json)) : List String :=
  List.insertionSort nameLe ((files.map Prod.fst).filter (fun n => strEndsWith n ".json"))

/-- The per-locale-file loop of `validate_catalog_dir`, over the sorted file
names.  Every name in `names` is drawn from `files`, so the `findFile` lookup
always succeeds; the unreachable `none` branch skips the name. -/
def checkLocales (dirPath : String) (files : List (String × Json))
    (base : Catalog) (maxRatio : ℚ) : List String → Except Fatal (List ValError)
  | [] => .ok []
  | name :: rest =>
    if strStartsWith (stemOf name) "en" then
      checkLocales dirPath files base maxRatio rest
    else
      match findFile files name with
      | none => checkLocales dirPath files base maxRatio rest
      | some js =>
        match load_json (dirPath ++ "/" ++ name) js with
        | .error f => .error f
        | .ok data =>
          match checkLocale base maxRatio (dirPath ++ "/" ++ name) data,
              checkLocales dirPath files base maxRatio rest with
          | _, .error f => .error f
          | some e, .ok errs => .ok (e :: errs)
          | none, .ok errs => .ok errs

/-- `validate_catalog_dir`.  The directory's contents are `listing`; `none`
models a directory that does not exist, in which case `base_path.exists()`
is false and `glob` is never reached. -/
def validate_catalog_dir (listing : Option (List (String × Json)))
    (dirPath : String) (maxRatio : ℚ) : Except Fatal (List ValError) :=
  let basePath := dirPath ++ "/en.json"
  match listing with
  | none => .ok [.missingBase basePath]
  | some files =>
    match findFile files "en.json" with
    | none => .ok [.missingBase basePath]
    | some bjs =>
      match load_json basePath bjs with
      | .error f => .error f
      | .ok base =>
        if (keySet base).length = 0 then .ok [.emptyBase basePath]
        else checkLocales dirPath files base maxRatio (sortedJsonNames files)

/-- One line of standard output, with string interpolation abstracted: the
success line, the failure header, or one indented error line. -/
inductive OutLine where
  | okLine
  | failHeader
  | errLine (e : ValError)
  deriving DecidableEq

/-- The final report of `main`: the exit status together with the printed
lines. -/
def renderReport (errs : List ValError) : Nat × List OutLine :=
  if errs.isEmpty then (0, [.okLine])
  else (1, .failHeader :: errs.map OutLine.errLine)

/-- The environment name of the CLI-directory threshold. -/
def cliEnvName : String := "I18N_MAX_SAME_RATIO_OPERATOR_CLI"

/-- The environment name of the wizard-directory threshold. -/
def wizEnvName : String := "I18N_MAX_SAME_RATIO_OPERATOR_WIZARD"

/-- `main`: resolve both thresholds, validate the two fixed directories in
order, concatenate the errors, and report.  `root` is the resolved repository
root; `cliEnv`/`wizEnv` the two environment values; `cliListing`/`wizListing`
the contents of the two fixed directories. -/
def main (pf : String → Option ℚ) (root : String)
    (cliEnv wizEnv : Option String)
    (cliListing wizListing : Option (List (String × Json))) :
    Except Fatal (Nat × List OutLine) :=
  match parse_ratio pf cliEnvName cliEnv (60 / 100) with
  | .error f => .error f
  | .ok cliMaxSameRatio =>
    match parse_ratio pf wizEnvName wizEnv (40 / 100) with
    | .error f => .error f
    | .ok wizMaxSameRatio =>
      match validate_catalog_dir cliListing (root ++ "/i18n/operator_cli")
          cliMaxSameRatio with
      | .error f => .error f
      | .ok cliErrs =>
        match validate_catalog_dir wizListing (root ++ "/i18n/operator_wizard")
            wizMaxSameRatio with
        | .error f => .error f
        | .ok wizErrs => .ok (renderReport (cliErrs ++ wizErrs))

/-- C1: threshold resolution.  An absent environment value, or one that is
empty after stripping, yields the hardcoded default; a present value the
float parser rejects is an immediate fatal abort, and a parsed value outside
the closed range `[0, 1]` is an immediate fatal abort.  The result type
`Except Fatal ℚ` carries no `ValError`, so neither failure is ever a
collected validation error; the third conjunct shows that every non-numeric
present value is fatal. -/
theorem parse_ratio_resolution (pf : String → Option ℚ) (envName : String)
    (d : ℚ) :
    parse_ratio pf envName none d = .ok d ∧
    (∀ s, strip s = "" → parse_ratio pf envName (some s) d = .ok d) ∧
    (∀ s, strip s ≠ "" → pf s = none →
      parse_ratio pf envName (some s) d = .error (.badFloat envName s)) ∧
    (∀ s v, strip s ≠ "" → pf s = some v → (v < 0 ∨ v > 1) →
      parse_ratio pf envName (some s) d = .error (.outOfRange envName v)) := by
  refine ⟨rfl, ?_, ?_, ?_⟩
  · intro s hs
    simp [parse_ratio, hs]
  · intro s hs hpf
    simp [parse_ratio, hs, hpf]
  · intro s v hs hpf hout
    simp [parse_ratio, hs, hpf, hout]

/-- Witness for C1 at concrete inputs: a non-numeric present value is
fatal. -/
theorem parse_ratio_resolution_witness :
    strip "abc" ≠ "" ∧
    parse_ratio (fun _ => none) "N" (some "abc") (3 / 5)
      = .error (.badFloat "N" "abc") :=
  ⟨by decide,
    (parse_ratio_resolution (fun _ => none) "N" (3 / 5)).2.2.1 "abc"
      (by decide) rfl⟩

/-- C5: base-catalog stop conditions.  A directory without the base file
yields exactly the single "missing base catalog" error, and a base catalog
that loads with zero keys yields exactly the single "base catalog has no
keys" error; in both cases the result is that one-element list whatever the
other files contain, so no locale file is checked. -/
theorem base_catalog_stop (files : List (String × Json)) (dirPath : String)
    (r : ℚ) :
    (findFile files "en.json" = none →
      validate_catalog_dir (some files) dirPath r
        = .ok [.missingBase (dirPath ++ "/en.json")]) ∧
    (∀ bjs base, findFile files "en.json" = some bjs →
      load_json (dirPath ++ "/en.json") bjs = .ok base →
      keySet base = [] →
      validate_catalog_dir (some files) dirPath r
        = .ok [.emptyBase (dirPath ++ "/en.json")]) := by
  constructor
  · intro h
    simp [validate_catalog_dir, h]
  · intro bjs base hfind hload hkeys
    simp [validate_catalog_dir, hfind, hload, hkeys]

/-- Witness for C5 at a concrete directory whose base catalog is the empty
object. -/
theorem base_catalog_stop_witness :
    validate_catalog_dir (some [("en.json", Json.jobj []), ("fr.json", Json.jobj [("a", Json.jstr "1")])]) "d" (1 / 2)
      = .ok [.emptyBase "d/en.json"] :=
  (base_catalog_stop [("en.json", Json.jobj []), ("fr.json", Json.jobj [("a", Json.jstr "1")])] "d" (1 / 2)).2
    (Json.jobj []) [] rfl rfl rfl

/-- C10: a directory that does not exist is handled exactly like an existing
directory lacking the base file — `validate_catalog_dir` returns the single
reportable "missing base catalog" error and never a fatal error, so a
missing directory cannot abort the run. -/
theorem missing_dir_like_missing_base (dirPath : String) (r : ℚ) :
    validate_catalog_dir none dirPath r
      = .ok [.missingBase (dirPath ++ "/en.json")] ∧
    (∀ files, findFile files "en.json" = none →
      validate_catalog_dir (some files) dirPath r
        = validate_catalog_dir none dirPath r) := by
  constructor
  · rfl
  · intro files h
    simp [validate_catalog_dir, h]

/-- Witness for C10 at a concrete nonexistent directory and a concrete
directory lacking `en.json`. -/
theorem missing_dir_like_missing_base_witness :
    validate_catalog_dir (some [("fr.json", Json.jobj [])]) "d" (1 / 2)
      = validate_catalog_dir none "d" (1 / 2) :=
  (missing_dir_like_missing_base "d" (1 / 2)).2 [("fr.json", Json.jobj [])] rfl

/-- C6: base-prefix exclusion.  A file whose stem starts with "en" is
skipped by the per-file loop: the loop's result on `name :: rest` equals its
result on `rest`, for every directory content `files` — in particular the
skipped file's own key set and values are never inspected and it produces no
error. -/
theorem en_prefix_skipped (dirPath : String) (files : List (String × Json))
    (base : Catalog) (r : ℚ) (name : String) (rest : List String)
    (h : strStartsWith (stemOf name) "en" = true) :
    checkLocales dirPath files base r (name :: rest)
      = checkLocales dirPath files base r rest := by
  simp [checkLocales, h]

/-- Witness for C6: a regional base variant whose content differs wildly
from the base contributes nothing. -/
theorem en_prefix_skipped_witness :
    checkLocales "d" [("en_GB.json", Json.jobj [("zzz", Json.jnum 7)])]
        [("a", "1")] (1 / 2) ["en_GB.json"]
      = checkLocales "d" [("en_GB.json", Json.jobj [("zzz", Json.jnum 7)])]
        [("a", "1")] (1 / 2) [] :=
  en_prefix_skipped "d" [("en_GB.json", Json.jobj [("zzz", Json.jnum 7)])]
    [("a", "1")] (1 / 2) "en_GB.json" [] (by decide)

/-- If the locale's key set equals the base's, no base key is missing. -/
theorem missingKeys_nil (base data : Catalog)
    (hkeys : ∀ k, k ∈ keySet data ↔ k ∈ keySet base) :
    missingKeys base data = [] := by
  simp only [missingKeys, List.filter_eq_nil_iff]
  intro k hk
  simp [(hkeys k).mpr hk]

/-- If the locale's key set equals the base's, no locale key is extra. -/
theorem extraKeys_nil (base data : Catalog)
    (hkeys : ∀ k, k ∈ keySet data ↔ k ∈ keySet base) :
    extraKeys base data = [] := by
  simp only [extraKeys, List.filter_eq_nil_iff]
  intro k hk
  simp [(hkeys k).mp hk]

/-- If every base key's value is copied verbatim, the identical-value count
is the full key count. -/
theorem sameCount_full (base data : Catalog)
    (hvals : ∀ k, k ∈ keySet base → data.lookup k = base.lookup k) :
    sameCount base data = (keySet base).length := by
  unfold sameCount
  rw [List.countP_eq_length]
  intro k hk
  simp [hvals k hk]

/-- C2: clone precedence.  A locale catalog with key parity whose value
equals the base's value at every key is reported as a full English clone,
and never as a ratio breach — for every threshold, including thresholds the
identical-value ratio (here 1) strictly exceeds. -/
theorem full_clone_precedence (base data : Catalog) (r : ℚ) (file : String)
    (_hne : keySet base ≠ [])
    (hkeys : ∀ k, k ∈ keySet data ↔ k ∈ keySet base)
    (hvals : ∀ k, k ∈ keySet base → data.lookup k = base.lookup k) :
    checkLocale base r file data
      = some (.fullClone file (keySet base).length (keySet base).length) ∧
    (∀ s t q, checkLocale base r file data
      ≠ some (.ratioBreach file s t q)) := by
  have hm := missingKeys_nil base data hkeys
  have he := extraKeys_nil base data hkeys
  have hs := sameCount_full base data hvals
  constructor
  · simp [checkLocale, hm, he, hs]
  · intro s t q
    simp [checkLocale, hm, he, hs]

/-- Witness for C2: an exact copy of the base, with a threshold (1/3) that
the ratio (2/2 = 1) strictly exceeds, is reported as a clone. -/
theorem full_clone_precedence_witness :
    checkLocale [("a", "1"), ("b", "2")] (1 / 3) "f" [("a", "1"), ("b", "2")]
      = some (.fullClone "f" 2 2) :=
  (full_clone_precedence [("a", "1"), ("b", "2")] [("a", "1"), ("b", "2")]
    (1 / 3) "f" (by decide) (fun _ => Iff.rfl) (fun _ _ => rfl)).1

/-- C3: strict-greater-than ratio test.  For a locale with key parity that
is not a full clone, the ratio-breach error is emitted iff `same / total`
is strictly greater than the threshold, and the file passes with no error
iff it is not; in particular a ratio exactly equal to the threshold
passes. -/
theorem ratio_strict_greater (base data : Catalog) (r : ℚ) (file : String)
    (hkeys : ∀ k, k ∈ keySet data ↔ k ∈ keySet base)
    (hnc : sameCount base data ≠ (keySet base).length) :
    (checkLocale base r file data
        = some (.ratioBreach file (sameCount base data) (keySet base).length r)
      ↔ ((sameCount base data : ℚ) / ((keySet base).length : ℚ) > r)) ∧
    (checkLocale base r file data = none
      ↔ ¬ ((sameCount base data : ℚ) / ((keySet base).length : ℚ) > r)) := by
  have hm := missingKeys_nil base data hkeys
  have he := extraKeys_nil base data hkeys
  by_cases hgt : ((sameCount base data : ℚ) / ((keySet base).length : ℚ) > r)
  · constructor
    · simp [checkLocale, hm, he, hnc, hgt]
    · simp [checkLocale, hm, he, hnc, hgt]
  · constructor
    · simp [checkLocale, hm, he, hnc, hgt]
    · simp [checkLocale, hm, he, hnc, hgt]

/-- Witness for C3, the spec's example: base `a↦1, b↦2`, threshold `1/2`,
locale `a↦1, b↦X`; the ratio is exactly the threshold and the file
passes. -/
theorem ratio_strict_greater_witness :
    checkLocale [("a", "1"), ("b", "2")] (1 / 2) "f" [("a", "1"), ("b", "X")]
      = none := by
  have hsame : sameCount [("a", "1"), ("b", "2")] [("a", "1"), ("b", "X")]
      = 1 := by decide
  have hlen : (keySet [("a", "1"), ("b", "2")]).length = 2 := by decide
  have h := (ratio_strict_greater [("a", "1"), ("b", "2")]
    [("a", "1"), ("b", "X")] (1 / 2) "f"
    (fun k => by
      rw [show keySet [("a", "1"), ("b", "X")] = keySet [("a", "1"), ("b", "2")]
        from by decide])
    (by decide)).2
  rw [hsame, hlen] at h
  exact h.mpr (by norm_num)

/-- C4: key-set mismatch handling.  For a locale file whose key set differs
from the base's, exactly one error is emitted for that file: a key-mismatch
record carrying the missing-key count and the extra-key count, each present
only when non-zero; no clone or ratio check is performed for the file, and
the loop proceeds to the remaining files (its result is the mismatch error
prepended to the result for `rest`). -/
theorem key_mismatch_one_error (dirPath : String)
    (files : List (String × Json)) (base : Catalog) (r : ℚ) (name : String)
    (rest : List String) (js : Json) (data : Catalog)
    (hen : strStartsWith (stemOf name) "en" = false)
    (hfind : findFile files name = some js)
    (hload : load_json (dirPath ++ "/" ++ name) js = .ok data)
    (hmis : missingKeys base data ≠ [] ∨ extraKeys base data ≠ []) :
    checkLocale base r (dirPath ++ "/" ++ name) data
      = some (.keyMismatch (dirPath ++ "/" ++ name)
          (optCount (missingKeys base data))
          (optCount (extraKeys base data))) ∧
    checkLocales dirPath files base r (name :: rest)
      = (checkLocales dirPath files base r rest).map
          (fun errs => .keyMismatch (dirPath ++ "/" ++ name)
            (optCount (missingKeys base data))
            (optCount (extraKeys base data)) :: errs) := by
  have hc : checkLocale base r (dirPath ++ "/" ++ name) data
      = some (.keyMismatch (dirPath ++ "/" ++ name)
          (optCount (missingKeys base data))
          (optCount (extraKeys base data))) := by
    unfold checkLocale
    rw [if_pos hmis]
  refine ⟨hc, ?_⟩
  simp only [checkLocales, hen, Bool.false_eq_true, if_false, hfind, hload, hc]
  cases hrest : checkLocales dirPath files base r rest <;> simp [Except.map]

/-- Witness for C4: one key missing and one different key added yields the
single `missing=1, extra=1` mismatch error, prepended to the result for the
remaining (empty) list of files. -/
theorem key_mismatch_one_error_witness :
    checkLocales "d" [("fr.json", Json.jobj [("a", Json.jstr "1"), ("z", Json.jstr "9")])]
        [("a", "1"), ("b", "2")] (1 / 2) ["fr.json"]
      = .ok [.keyMismatch "d/fr.json" (some 1) (some 1)] :=
  ((key_mismatch_one_error "d"
    [("fr.json", Json.jobj [("a", Json.jstr "1"), ("z", Json.jstr "9")])]
    [("a", "1"), ("b", "2")] (1 / 2) "fr.json" [] (Json.jobj [("a", Json.jstr "1"), ("z", Json.jstr "9")])
    [("a", "1"), ("z", "9")] (by decide) rfl rfl (by decide)).2).trans rfl

/-- C8: non-string value rejection.  A catalog file whose top-level object
maps some key to a non-string value makes `load_json` abort fatally; the
fatal record names the file and carries the first five offending keys, any
further offenders being dropped silently.  The final conjunct shows the
abort swallowing the whole run: when such a file is reached by the per-file
loop the loop's result is the fatal error, not a list of validation
errors. -/
theorem non_string_values_fatal (path : String)
    (fields : List (String × Json)) (h : nonStringKeys fields ≠ []) :
    load_json path (.jobj fields)
      = .error (.nonString path ((nonStringKeys fields).take 5)) ∧
    ((nonStringKeys fields).take 5).length ≤ 5 ∧
    (∀ k, k ∈ (nonStringKeys fields).take 5 → k ∈ nonStringKeys fields) ∧
    (∀ dirPath files base r name rest,
      strStartsWith (stemOf name) "en" = false →
      findFile files name = some (.jobj fields) →
      checkLocales dirPath files base r (name :: rest)
        = .error (.nonString (dirPath ++ "/" ++ name)
            ((nonStringKeys fields).take 5))) := by
  have hload : ∀ p, load_json p (.jobj fields)
      = .error (.nonString p ((nonStringKeys fields).take 5)) := by
    intro p
    simp only [load_json]
    rw [if_neg (by simpa [List.isEmpty_iff] using h)]
  refine ⟨hload path, ?_, ?_, ?_⟩
  · rw [List.length_take]
    exact min_le_left _ _
  · intro k hk
    exact List.take_subset _ _ hk
  · intro dirPath files base r name rest hen hfind
    simp only [checkLocales, hen, Bool.false_eq_true, if_false, hfind,
      hload (dirPath ++ "/" ++ name)]

/-- Witness for C8: six offending keys are truncated to the first five, and
reaching such a file aborts the loop with the fatal error. -/
theorem non_string_values_fatal_witness :
    checkLocales "d"
        [("fr.json", Json.jobj [("k1", Json.jnum 1), ("k2", Json.jnum 2),
          ("k3", Json.jnum 3), ("k4", Json.jnum 4), ("k5", Json.jnum 5),
          ("k6", Json.jnum 6)])]
        [("a", "1")] (1 / 2) ["fr.json"]
      = .error (.nonString "d/fr.json" ["k1", "k2", "k3", "k4", "k5"]) :=
  ((non_string_values_fatal "d/fr.json"
    [("k1", Json.jnum 1), ("k2", Json.jnum 2), ("k3", Json.jnum 3),
      ("k4", Json.jnum 4), ("k5", Json.jnum 5), ("k6", Json.jnum 6)]
    (by decide)).2.2.2 "d"
    [("fr.json", Json.jobj [("k1", Json.jnum 1), ("k2", Json.jnum 2),
      ("k3", Json.jnum 3), ("k4", Json.jnum 4), ("k5", Json.jnum 5),
      ("k6", Json.jnum 6)])]
    [("a", "1")] (1 / 2) "fr.json" [] (by decide) rfl).trans rfl

/-- C7: overall pass/fail.  When both thresholds resolve and both directory
validations return (no fatal error), `main` concatenates the CLI directory's
errors with the wizard directory's errors in that order and reports on the
concatenation: exit status 0 iff the concatenated list is empty, in which
case the output is the single confirmation line; otherwise exit status 1
with the failure header followed by one indented line per error, in
discovery order. -/
theorem main_pass_fail (pf : String → Option ℚ) (root : String)
    (cliEnv wizEnv : Option String)
    (cliListing wizListing : Option (List (String × Json)))
    (r1 r2 : ℚ) (e1 e2 : List ValError)
    (h1 : parse_ratio pf cliEnvName cliEnv (60 / 100) = .ok r1)
    (h2 : parse_ratio pf wizEnvName wizEnv (40 / 100) = .ok r2)
    (h3 : validate_catalog_dir cliListing (root ++ "/i18n/operator_cli") r1
      = .ok e1)
    (h4 : validate_catalog_dir wizListing (root ++ "/i18n/operator_wizard") r2
      = .ok e2) :
    main pf root cliEnv wizEnv cliListing wizListing
      = .ok (renderReport (e1 ++ e2)) ∧
    ((renderReport (e1 ++ e2)).1 = 0 ↔ e1 ++ e2 = []) ∧
    (e1 ++ e2 = [] → renderReport (e1 ++ e2) = (0, [.okLine])) ∧
    (e1 ++ e2 ≠ [] → renderReport (e1 ++ e2)
      = (1, .failHeader :: (e1 ++ e2).map OutLine.errLine)) := by
  refine ⟨?_, ?_, ?_, ?_⟩
  · simp only [main, h1, h2, h3, h4]
  · by_cases hnil : e1 ++ e2 = [] <;>
      simp [renderReport, hnil]
  · intro hnil
    simp [renderReport, hnil]
  · intro hnil
    simp [renderReport, List.isEmpty_iff, hnil]

/-- Witness for C7: one directory lacks its base catalog, the other is
clean; `main` exits with status 1, a header line and the single error
line. -/
theorem main_pass_fail_witness :
    main (fun _ => none) "R" none none none
        (some [("en.json", Json.jobj [("a", Json.jstr "1")])])
      = .ok (1, [.failHeader,
          .errLine (.missingBase "R/i18n/operator_cli/en.json")]) :=
  ((main_pass_fail (fun _ => none) "R" none none none
    (some [("en.json", Json.jobj [("a", Json.jstr "1")])])
    (60 / 100) (40 / 100)
    [.missingBase "R/i18n/operator_cli/en.json"] []
    rfl rfl rfl rfl).1).trans rfl

/-- Reading a named file is insensitive to the enumeration order of a
directory whose file names are distinct. -/
theorem findFile_perm {l1 l2 : List (String × Json)} (h : l1.Perm l2)
    (nd : (l1.map Prod.fst).Nodup) (n : String) :
    findFile l1 n = findFile l2 n := by
  induction h with
  | nil => rfl
  | cons x h ih =>
    simp only [List.map_cons, List.nodup_cons] at nd
    by_cases hx : (x.1 == n) = true
    · simp [findFile, List.find?_cons, hx]
    · simp only [findFile, List.find?_cons, hx]
      exact ih nd.2
  | swap x y l =>
    simp only [List.map_cons, List.nodup_cons, List.mem_cons] at nd
    by_cases hy : (y.1 == n) = true <;> by_cases hx : (x.1 == n) = true
    · exact absurd (Or.inl ((eq_of_beq hy).trans (eq_of_beq hx).symm)) nd.1
    · simp [findFile, List.find?_cons, hx, hy]
    · simp [findFile, List.find?_cons, hx, hy]
    · simp [findFile, List.find?_cons, hx, hy]
  | trans h1 _h2 ih1 ih2 =>
    exact (ih1 nd).trans (ih2 (((h1.map Prod.fst).nodup_iff).mp nd))

/-- The sorted list of catalog file names is determined by the directory's
contents, not by the enumeration order. -/
theorem sortedJsonNames_perm {l1 l2 : List (String × Json)}
    (h : l1.Perm l2) : sortedJsonNames l1 = sortedJsonNames l2 := by
  refine List.eq_of_perm_of_sorted (r := nameLe) ?_
    (List.sorted_insertionSort _ _) (List.sorted_insertionSort _ _)
  exact (List.perm_insertionSort _ _).trans
    (((h.map Prod.fst).filter _).trans (List.perm_insertionSort _ _).symm)

/-- The per-file loop only consults the directory contents through
`findFile`, so two contents agreeing on every lookup give the same loop
result. -/
theorem checkLocales_congr {f1 f2 : List (String × Json)}
    (hf : ∀ n, findFile f1 n = findFile f2 n) (dirPath : String) (r : ℚ) :
    ∀ (base : Catalog) (names : List String),
      checkLocales dirPath f1 base r names
        = checkLocales dirPath f2 base r names := by
  intro base names
  induction names with
  | nil => rfl
  | cons n ns ih => simp only [checkLocales, hf n, ih]

/-- Directory validation is insensitive to enumeration order when the file
names are distinct. -/
theorem validate_catalog_dir_perm {f1 f2 : List (String × Json)}
    (h : f1.Perm f2) (nd : (f1.map Prod.fst).Nodup) (dirPath : String)
    (r : ℚ) :
    validate_catalog_dir (some f1) dirPath r
      = validate_catalog_dir (some f2) dirPath r := by
  have hf : ∀ n, findFile f1 n = findFile f2 n := findFile_perm h nd
  simp only [validate_catalog_dir, hf "en.json", sortedJsonNames_perm h,
    checkLocales_congr hf dirPath r]

/-- C9: determinism of the output.  The result of `main` is a function of
the directory contents alone: any two enumeration orders of each fixed
directory (with the distinct file names a real directory has) produce the
same result, because each directory's catalog files are processed in
lexicographically sorted name order (second conjunct) and the two
directories' errors are concatenated in the fixed CLI-then-wizard order. -/
theorem deterministic_output (pf : String → Option ℚ) (root : String)
    (cliEnv wizEnv : Option String) (c1 c2 w1 w2 : List (String × Json))
    (hc : c1.Perm c2) (hcnd : (c1.map Prod.fst).Nodup)
    (hw : w1.Perm w2) (hwnd : (w1.map Prod.fst).Nodup) :
    main pf root cliEnv wizEnv (some c1) (some w1)
      = main pf root cliEnv wizEnv (some c2) (some w2) ∧
    List.Sorted nameLe (sortedJsonNames c1) := by
  constructor
  · simp only [main, validate_catalog_dir_perm hc hcnd,
      validate_catalog_dir_perm hw hwnd]
  · exact List.sorted_insertionSort _ _

/-- Witness for C9: swapping the enumeration order of the CLI directory
leaves the run's result unchanged. -/
theorem deterministic_output_witness :
    main (fun _ => none) "R" none none
        (some [("en.json", Json.jobj [("a", Json.jstr "1")]),
          ("fr.json", Json.jobj [("a", Json.jstr "x")])])
        (some [("en.json", Json.jobj [("a", Json.jstr "1")])])
      = main (fun _ => none) "R" none none
        (some [("fr.json", Json.jobj [("a", Json.jstr "x")]),
          ("en.json", Json.jobj [("a", Json.jstr "1")])])
        (some [("en.json", Json.jobj [("a", Json.jstr "1")])]) :=
  (deterministic_output (fun _ => none) "R" none none
    [("en.json", Json.jobj [("a", Json.jstr "1")]),
      ("fr.json", Json.jobj [("a", Json.jstr "x")])]
    [("fr.json", Json.jobj [("a", Json.jstr "x")]),
      ("en.json", Json.jobj [("a", Json.jstr "1")])]
    [("en.json", Json.jobj [("a", Json.jstr "1")])]
    [("en.json", Json.jobj [("a", Json.jstr "1")])]
    (List.Perm.swap ("fr.json", Json.jobj [("a", Json.jstr "x")])
      ("en.json", Json.jobj [("a", Json.jstr "1")]) [])
    (by decide) (List.Perm.refl _) (by decide)).1

end I18nCheck
